import Mathlib

/-!
Shallow embedding of the 3D-globe visualization core of the arxiv-globe
repository: coordinate mapping (`latLonToVector3`), bezier curve network
construction between markers, affiliation filtering, marker pulsing,
land-pixel raster lookup, and the damped rotation controller of the render
loop.  Vectors are modelled over the reals; `Three.Vector3` becomes `Vec3`.
-/

namespace ArxivGlobe

/-- Model of Three.Vector3: a triple of real coordinates. -/
structure Vec3 where
  x : ℝ
  y : ℝ
  z : ℝ

namespace Vec3

/-- Three.Vector3.dot: x*x' + y*y' + z*z'. -/
noncomputable def dot (v w : Vec3) : ℝ := v.x * w.x + v.y * w.y + v.z * w.z

/-- Three.Vector3.length: sqrt(x*x + y*y + z*z). -/
noncomputable def length (v : Vec3) : ℝ :=
  Real.sqrt (v.x * v.x + v.y * v.y + v.z * v.z)

/-- Three.Vector3.divideScalar. -/
noncomputable def divideScalar (v : Vec3) (s : ℝ) : Vec3 :=
  ⟨v.x / s, v.y / s, v.z / s⟩

/-- Three.Vector3.multiplyScalar. -/
noncomputable def multiplyScalar (v : Vec3) (s : ℝ) : Vec3 :=
  ⟨v.x * s, v.y * s, v.z * s⟩

/-- Three.Vector3.normalize: divideScalar(length || 1); the zero vector is
left unchanged (division by 1). -/
noncomputable def normalize (v : Vec3) : Vec3 :=
  v.divideScalar (if v.length = 0 then 1 else v.length)

/-- Three.Vector3.add, componentwise. -/
noncomputable def add (v w : Vec3) : Vec3 := ⟨v.x + w.x, v.y + w.y, v.z + w.z⟩

/-- Three.Vector3.cross product. -/
noncomputable def cross (v w : Vec3) : Vec3 :=
  ⟨v.y * w.z - v.z * w.y, v.z * w.x - v.x * w.z, v.x * w.y - v.y * w.x⟩

/-- The zero vector. -/
def zero : Vec3 := ⟨0, 0, 0⟩

end Vec3

/-- A quadratic bezier curve segment (Three.QuadraticBezierCurve3):
start point, control point, end point. -/
structure QuadSegment where
  p1 : Vec3
  control : Vec3
  p2 : Vec3

/-- A cubic bezier curve segment (Three.CubicBezierCurve3). -/
structure CubicSegment where
  p1 : Vec3
  control1 : Vec3
  control2 : Vec3
  p2 : Vec3

/-! ## Coordinate Mapper (src/app/utils/coordinates.ts / globeUtils.ts) -/

/-- DEG2RAD = Math.PI / 180. -/
noncomputable def DEG2RAD : ℝ := Real.pi / 180

/-- latLonToVector3: convert latitude/longitude (degrees) and a radius to a
3D Cartesian position, with phi = (90 - lat)*DEG2RAD,
theta = (lon + 180)*DEG2RAD, x = -(r sin phi cos theta), y = r cos phi,
z = r sin phi sin theta. -/
noncomputable def latLonToVector3 (lat lon : ℝ) (radius : ℝ := 1.005) : Vec3 :=
  let phi := (90 - lat) * DEG2RAD
  let theta := (lon + 180) * DEG2RAD
  ⟨-(radius * Real.sin phi * Real.cos theta),
    radius * Real.cos phi,
    radius * Real.sin phi * Real.sin theta⟩

/-! ## Curve Network Builder (src/app/utils/curves.ts) -/

namespace Curves

/-- MARKER_RADIUS = 1.005 in curves.ts. -/
noncomputable def MARKER_RADIUS : ℝ := 1.005

/-- The angular separation computed inside calculateArcHeight:
acos(max(-1, min(1, normalize(p1) . normalize(p2)))). -/
noncomputable def angleBetween (point1 point2 : Vec3) : ℝ :=
  Real.arccos (max (-1) (min 1 (point1.normalize.dot point2.normalize)))

/-- calculateArcHeight (curves.ts lines 12-17):
0.4 + (angle / PI) * 1.6, range 0.4 to 2.0. -/
noncomputable def calculateArcHeight (point1 point2 : Vec3) : ℝ :=
  0.4 + (angleBetween point1 point2 / Real.pi) * 1.6

/-- calculateControlPoint (curves.ts lines 22-25): normalized midpoint of the
two points scaled by (1 + arcHeight). -/
noncomputable def calculateControlPoint (point1 point2 : Vec3) (arcHeight : ℝ) :
    Vec3 :=
  let midpoint := (point1.add point2).multiplyScalar 0.5
  midpoint.normalize.multiplyScalar (1 + arcHeight)

/-- One arc segment of the curve network: quadratic bezier from p1 through
the computed control point to p2 (curves.ts lines 64-69). -/
noncomputable def makeSegment (p1 p2 : Vec3) : QuadSegment :=
  ⟨p1, calculateControlPoint p1 p2 (calculateArcHeight p1 p2), p2⟩

/-- The `for` loop of createCurvesBetweenMarkers: one segment per
consecutive pair of positions, in input order. -/
noncomputable def pairSegments : List Vec3 → List QuadSegment
  | p1 :: p2 :: rest => makeSegment p1 p2 :: pairSegments (p2 :: rest)
  | _ => []

/-- Input coordinates for curve construction: { latitude, longitude }. -/
structure LatLon where
  latitude : ℝ
  longitude : ℝ

/-- createCurvesBetweenMarkers (curves.ts lines 47-83): fewer than 2 points
gives an empty group; otherwise one segment per consecutive pair of the
mapped positions, plus a closing segment from the last position back to the
first when closeLoop is set and there are more than 2 points. -/
noncomputable def createCurvesBetweenMarkers (affiliations : List LatLon)
    (closeLoop : Bool := false) : List QuadSegment :=
  if affiliations.length < 2 then []
  else
    let positions := affiliations.map fun aff =>
      latLonToVector3 aff.latitude aff.longitude MARKER_RADIUS
    let segments := pairSegments positions
    if closeLoop = true ∧ 2 < positions.length then
      match positions.getLast?, positions.head? with
      | some pLast, some pFirst => segments ++ [makeSegment pLast pFirst]
      | _, _ => segments
    else segments

/-- The radial direction used by createSelfLoopCurve (line 115). -/
noncomputable def selfLoopRadialDir (affiliation : LatLon) : Vec3 :=
  (latLonToVector3 affiliation.latitude affiliation.longitude
    MARKER_RADIUS).normalize

/-- The tangent direction of createSelfLoopCurve (lines 118-123): cross the
reference axis (0,1,0) with the radial direction, but fall back to the axis
(1,0,0) when the point is near a pole (|radialDir.y| > 0.99). -/
noncomputable def selfLoopTangent (affiliation : LatLon) : Vec3 :=
  let radialDir := selfLoopRadialDir affiliation
  if |radialDir.y| > 0.99 then
    ((Vec3.mk 1 0 0).cross radialDir).normalize
  else
    ((Vec3.mk 0 1 0).cross radialDir).normalize

/-- loopHeight = 0.5 in createSelfLoopCurve (line 125). -/
noncomputable def loopHeight : ℝ := 0.5

/-- First control point of the self-loop (lines 128-130). -/
noncomputable def selfLoopControl1 (affiliation : LatLon) : Vec3 :=
  ((latLonToVector3 affiliation.latitude affiliation.longitude
      MARKER_RADIUS).add
    ((selfLoopTangent affiliation).multiplyScalar loopHeight)).add
    ((selfLoopRadialDir affiliation).multiplyScalar (loopHeight * 0.5))

/-- Second control point of the self-loop (lines 132-134). -/
noncomputable def selfLoopControl2 (affiliation : LatLon) : Vec3 :=
  ((latLonToVector3 affiliation.latitude affiliation.longitude
      MARKER_RADIUS).add
    ((selfLoopTangent affiliation).multiplyScalar (-loopHeight))).add
    ((selfLoopRadialDir affiliation).multiplyScalar (loopHeight * 0.5))

/-- createSelfLoopCurve (curves.ts lines 110-140): a cubic bezier that
departs from and returns to the mapped position. -/
noncomputable def createSelfLoopCurve (affiliation : LatLon) : CubicSegment :=
  let position := latLonToVector3 affiliation.latitude affiliation.longitude
    MARKER_RADIUS
  ⟨position, selfLoopControl1 affiliation, selfLoopControl2 affiliation,
    position⟩

end Curves

/-! ## Curve Network Builder, globeUtils.ts variant (lines 229-401) -/

namespace GlobeUtils

/-- calculateArcHeight (globeUtils.ts lines 229-252) with explicit
minHeight/maxHeight parameters (defaults 0.4 and 2):
minHeight + (angle / PI) * (maxHeight - minHeight). -/
noncomputable def calculateArcHeight (point1 point2 : Vec3)
    (minHeight : ℝ := 0.4) (maxHeight : ℝ := 2) : ℝ :=
  minHeight + (Curves.angleBetween point1 point2 / Real.pi) *
    (maxHeight - minHeight)

/-- Input of the globeUtils curve builder: coordinates plus the optional
geocoded flag (TS `geocoded?: boolean`). -/
structure GAffiliation where
  latitude : ℝ
  longitude : ℝ
  geocoded : Option Bool

/-- Result of the globeUtils createCurvesBetweenMarkers: the curve group
plus whether the too-few-points console warning was emitted. -/
structure CurveResult where
  segments : List QuadSegment
  warnedTooFew : Bool

/-- One arc segment of the globeUtils curve network (lines 331-367). -/
noncomputable def makeSegment (p1 p2 : Vec3) : QuadSegment :=
  ⟨p1, Curves.calculateControlPoint p1 p2 (calculateArcHeight p1 p2), p2⟩

/-- The consecutive-pair loop of the globeUtils variant. -/
noncomputable def pairSegments : List Vec3 → List QuadSegment
  | p1 :: p2 :: rest => makeSegment p1 p2 :: pairSegments (p2 :: rest)
  | _ => []

/-- createCurvesBetweenMarkers (globeUtils.ts lines 291-401): filters to
affiliations whose geocoded flag is not false, warns and returns an empty
group when fewer than 2 remain, and otherwise builds consecutive segments
plus an optional closing segment (closeLoop defaults to true). -/
noncomputable def createCurvesBetweenMarkers (affiliations : List GAffiliation)
    (markerRadius : ℝ := 1.005) (closeLoop : Bool := true) : CurveResult :=
  let validAffiliations := affiliations.filter fun aff =>
    aff.geocoded != some false
  if validAffiliations.length < 2 then ⟨[], true⟩
  else
    let positions := validAffiliations.map fun aff =>
      latLonToVector3 aff.latitude aff.longitude markerRadius
    let segments := pairSegments positions
    if closeLoop = true ∧ 2 < positions.length then
      match positions.getLast?, positions.head? with
      | some pLast, some pFirst => ⟨segments ++ [makeSegment pLast pFirst], false⟩
      | _, _ => ⟨segments, false⟩
    else ⟨segments, false⟩

end GlobeUtils

/-! ## Affiliation filtering (src/app/types/paper.ts,
src/app/hooks/useAffiliationVisualization.ts) -/

/-- The Affiliation record of paper.ts: latitude/longitude are nullable. -/
structure Affiliation where
  institution : String
  address : Option String
  country : String
  latitude : Option ℝ
  longitude : Option ℝ
  geocoded : Bool

/-- isValidAffiliation (useAffiliationVisualization.ts lines 22-24): the
geocoded flag must be set AND both coordinates must be non-null. -/
def isValidAffiliation (aff : Affiliation) : Bool :=
  aff.geocoded && aff.latitude.isSome && aff.longitude.isSome

/-- filterValidAffiliations (useAffiliationVisualization.ts lines 29-31). -/
def filterValidAffiliations (affiliations : List Affiliation) :
    List Affiliation :=
  affiliations.filter fun aff => isValidAffiliation aff

/-! ## Marker Set Manager (src/app/utils/markers.ts / globeUtils.ts) -/

/-- A marker mesh: its position, its scale vector (Three.Object3D.scale)
and its material color. -/
structure Marker where
  position : Vec3
  scale : Vec3
  color : ℕ

/-- Three.Vector3.setScalar: set all three components to the scalar. -/
def Vec3.setScalar (_ : Vec3) (s : ℝ) : Vec3 := ⟨s, s, s⟩

/-- updateMarkerPulse (markers.ts lines 501-512): every marker of the group
gets its scale set to the uniform scalar 1.0 + sin(time * 2.0) * 0.3. -/
noncomputable def updateMarkerPulse (markerGroup : List Marker) (time : ℝ) :
    List Marker :=
  let scale := 1.0 + Real.sin (time * 2.0) * 0.3
  markerGroup.map fun marker => { marker with scale := marker.scale.setScalar scale }

/-! ## Landmass Rasterizer (src/app/utils/landmass.ts / globeUtils.ts) -/

/-- A loaded RGBA raster: width, height and the flat byte buffer. -/
structure ImageData where
  width : ℕ
  height : ℕ
  data : List ℕ

/-- Truncation toward zero, the semantics of number-to-integer conversion
underlying the JS `%` operator. -/
noncomputable def rtrunc (r : ℝ) : ℤ := if 0 ≤ r then ⌊r⌋ else ⌈r⌉

/-- The JS remainder operator on numbers: x - y * trunc(x / y). -/
noncomputable def jsMod (x y : ℝ) : ℝ := x - y * rtrunc (x / y)

/-- A JS typed-array read `data[i]`: out-of-range indices (negative or past
the end) give `undefined`, modelled as `none`. -/
def byteGet (data : List ℕ) (i : ℤ) : Option ℕ :=
  if 0 ≤ i then data.get? i.toNat else none

/-- The pixel row computed by isLandPixelVisible:
floor((imgHeight / 180) * (-lat + 90)). -/
noncomputable def pixelRowOf (imgHeight : ℕ) (lat : ℝ) : ℤ :=
  ⌊(imgHeight : ℝ) / 180 * (-lat + 90)⌋

/-- The pixel column computed by isLandPixelVisible:
floor((imgWidth / 360) * ((long + 180) % 360)). -/
noncomputable def pixelColumnOf (imgWidth : ℕ) (long : ℝ) : ℤ :=
  ⌊(imgWidth : ℝ) / 360 * jsMod (long + 180) 360⌋

/-- isLandPixelVisible (globeUtils.ts lines 6-22): false when no image is
loaded; otherwise the alpha byte at the computed pixel must exceed 120.  A
lookup outside the buffer yields undefined in JS, and `undefined > 120` is
false. -/
noncomputable def isLandPixelVisible (long lat : ℝ)
    (imageData : Option ImageData) : Bool :=
  match imageData with
  | none => false
  | some img =>
    let imgWidth := img.width
    let imgHeight := img.height
    let pixelRow := pixelRowOf imgHeight lat
    let pixelColumn := pixelColumnOf imgWidth long
    match byteGet img.data (pixelRow * imgWidth * 4 + pixelColumn * 4 + 3) with
    | some alpha => decide (120 < alpha)
    | none => false

/-! ## Rotation Controller (render loop of Globe.tsx / useGlobeScene) -/

/-- The `while (diff > Math.PI) diff -= 2 * Math.PI` loop of renderScene. -/
noncomputable def normPos (x : ℝ) : ℝ :=
  if h : Real.pi < x then normPos (x - 2 * Real.pi) else x
termination_by (⌈(x - Real.pi) / (2 * Real.pi)⌉).toNat
decreasing_by
  have hπ := Real.pi_pos
  have harg : (x - 2 * Real.pi - Real.pi) / (2 * Real.pi)
      = (x - Real.pi) / (2 * Real.pi) - 1 := by
    field_simp
    ring
  have hpos : (0:ℝ) < (x - Real.pi) / (2 * Real.pi) :=
    div_pos (by linarith) (by linarith)
  have hceil : 0 < ⌈(x - Real.pi) / (2 * Real.pi)⌉ := Int.ceil_pos.mpr hpos
  rw [harg, Int.ceil_sub_one]
  omega

/-- The `while (diff < -Math.PI) diff += 2 * Math.PI` loop of renderScene. -/
noncomputable def normNeg (x : ℝ) : ℝ :=
  if h : x < -Real.pi then normNeg (x + 2 * Real.pi) else x
termination_by (⌈(-Real.pi - x) / (2 * Real.pi)⌉).toNat
decreasing_by
  have hπ := Real.pi_pos
  have harg : (-Real.pi - (x + 2 * Real.pi)) / (2 * Real.pi)
      = (-Real.pi - x) / (2 * Real.pi) - 1 := by
    field_simp
    ring
  have hpos : (0:ℝ) < (-Real.pi - x) / (2 * Real.pi) :=
    div_pos (by linarith) (by linarith)
  have hceil : 0 < ⌈(-Real.pi - x) / (2 * Real.pi)⌉ := Int.ceil_pos.mpr hpos
  rw [harg, Int.ceil_sub_one]
  omega

/-- The shortest-angular-distance normalization of renderScene
(Globe.tsx lines 108-111): both while loops in sequence. -/
noncomputable def normalizeAngle (x : ℝ) : ℝ := normNeg (normPos x)

/-- Rotation state of the render loop: the globe group's current y
rotation, the target rotation ref and the isRotating ref. -/
structure RotState where
  current : ℝ
  target : ℝ
  rotating : Bool

/-- One frame of the rotation part of renderScene (Globe.tsx lines
100-134): while rotating, normalize the difference, advance by
diff * 0.05, and snap exactly to the target (clearing the flag) once
|diff| < 0.01; otherwise spin idly by 0.001 per frame. -/
noncomputable def seekStep (s : RotState) : RotState :=
  if s.rotating = true then
    let diff := normalizeAngle (s.target - s.current)
    let advanced := s.current + diff * 0.05
    if |diff| < 0.01 then { current := s.target, target := s.target, rotating := false }
    else { current := advanced, target := s.target, rotating := true }
  else { current := s.current + 0.001, target := s.target, rotating := s.rotating }

/-- The normalized angular difference seen by the render loop after n
frames. -/
noncomputable def diffSeq (s : RotState) (n : ℕ) : ℝ :=
  normalizeAngle ((seekStep^[n] s).target - (seekStep^[n] s).current)

end ArxivGlobe

namespace ArxivGlobe

/-- C5 helper: the sum of squares of the components of `latLonToVector3`
equals the squared radius. -/
theorem latLonToVector3_sq_sum (lat lon radius : ℝ) :
    (latLonToVector3 lat lon radius).x * (latLonToVector3 lat lon radius).x +
    (latLonToVector3 lat lon radius).y * (latLonToVector3 lat lon radius).y +
    (latLonToVector3 lat lon radius).z * (latLonToVector3 lat lon radius).z
    = radius ^ 2 := by
  have hφ := Real.sin_sq_add_cos_sq ((90 - lat) * DEG2RAD)
  have hθ := Real.sin_sq_add_cos_sq ((lon + 180) * DEG2RAD)
  simp only [latLonToVector3]
  linear_combination (radius ^ 2 * Real.sin ((90 - lat) * DEG2RAD) ^ 2) * hθ +
    radius ^ 2 * hφ

/-- C5: for lat in [-90, 90], lon in [-180, 180], radius > 0, the point
returned by latLonToVector3 has Euclidean distance `radius` from the
origin. -/
theorem latLonToVector3_length (lat lon radius : ℝ)
    (hlat : -90 ≤ lat ∧ lat ≤ 90) (hlon : -180 ≤ lon ∧ lon ≤ 180)
    (hr : 0 < radius) :
    (latLonToVector3 lat lon radius).length = radius := by
  rw [Vec3.length, latLonToVector3_sq_sum]
  rw [Real.sqrt_sq hr.le]

/-- C5 witness: at lat = 0, lon = 0, radius = 1 the mapped point lies at
distance 1 from the origin. -/
theorem latLonToVector3_length_witness :
    (-90 ≤ (0:ℝ) ∧ (0:ℝ) ≤ 90) ∧ (-180 ≤ (0:ℝ) ∧ (0:ℝ) ≤ 180) ∧
    (0:ℝ) < 1 ∧ (latLonToVector3 0 0 1).length = 1 := by
  refine ⟨⟨by norm_num, by norm_num⟩, ⟨by norm_num, by norm_num⟩, by norm_num, ?_⟩
  exact latLonToVector3_length 0 0 1 ⟨by norm_num, by norm_num⟩
    ⟨by norm_num, by norm_num⟩ (by norm_num)

/-- C6: at either pole, the mapped position does not depend on longitude:
all longitudes collapse to a single point. -/
theorem latLonToVector3_poles (radius lon₁ lon₂ : ℝ)
    (h₁ : -180 ≤ lon₁ ∧ lon₁ ≤ 180) (h₂ : -180 ≤ lon₂ ∧ lon₂ ≤ 180) :
    latLonToVector3 90 lon₁ radius = latLonToVector3 90 lon₂ radius ∧
    latLonToVector3 (-90) lon₁ radius = latLonToVector3 (-90) lon₂ radius := by
  have h0 : ((90:ℝ) - 90) * DEG2RAD = 0 := by ring
  have hπ : ((90:ℝ) - (-90)) * DEG2RAD = Real.pi := by
    rw [DEG2RAD]; ring
  constructor
  · simp only [latLonToVector3, h0, Real.sin_zero, Vec3.mk.injEq]
    refine ⟨by ring, trivial, by ring⟩
  · simp only [latLonToVector3, hπ, Real.sin_pi, Vec3.mk.injEq]
    refine ⟨by ring, trivial, by ring⟩

/-- Helper: the arc-height map is strictly increasing in the angle. -/
theorem arcHeight_mono_aux (a b : ℝ) (hab : a < b) :
    0.4 + a / Real.pi * 1.6 < 0.4 + b / Real.pi * 1.6 := by
  have hπ := Real.pi_pos
  have h1 : 0 < (b - a) / Real.pi * 1.6 :=
    mul_pos (div_pos (sub_pos.mpr hab) hπ) (by norm_num)
  have h2 : 0.4 + b / Real.pi * 1.6 = 0.4 + a / Real.pi * 1.6 +
      (b - a) / Real.pi * 1.6 := by ring
  linarith

/-- Helper: the globeUtils arc height at its default bounds coincides with
the curves.ts arc height. -/
theorem calculateArcHeight_default (p q : Vec3) :
    GlobeUtils.calculateArcHeight p q 0.4 2 = Curves.calculateArcHeight p q := by
  rw [GlobeUtils.calculateArcHeight, Curves.calculateArcHeight]
  norm_num

/-- C1: for points on the unit sphere, a strictly smaller angular separation
(acos of the clamped dot product of the normalized points) gives a strictly
smaller arc height, in both the curves.ts and the globeUtils.ts variant,
and the height is the linear map 0.4 + (angle/pi)*(2 - 0.4). -/
theorem calculateArcHeight_strictMono (A B C : Vec3)
    (hA : A.length = 1) (hB : B.length = 1) (hC : C.length = 1)
    (hangle : Curves.angleBetween A B < Curves.angleBetween A C) :
    Curves.calculateArcHeight A B < Curves.calculateArcHeight A C ∧
    GlobeUtils.calculateArcHeight A B 0.4 2 <
      GlobeUtils.calculateArcHeight A C 0.4 2 ∧
    Curves.calculateArcHeight A B =
      0.4 + Curves.angleBetween A B / Real.pi * (2 - 0.4) := by
  have hkey : Curves.calculateArcHeight A B < Curves.calculateArcHeight A C := by
    rw [Curves.calculateArcHeight, Curves.calculateArcHeight]
    exact arcHeight_mono_aux _ _ hangle
  refine ⟨hkey, ?_, ?_⟩
  · rw [calculateArcHeight_default, calculateArcHeight_default]
    exact hkey
  · rw [Curves.calculateArcHeight]
    norm_num

/-- Helper: the length of a concrete standard basis style vector. -/
theorem vec100_length : (Vec3.mk 1 0 0).length = 1 := by
  rw [Vec3.length]
  norm_num

/-- Helper: second basis vector has length one. -/
theorem vec010_length : (Vec3.mk 0 1 0).length = 1 := by
  rw [Vec3.length]
  norm_num

/-- Helper: normalizing a vector of length one divides by one. -/
theorem normalize_of_length_one (v : Vec3) (hv : v.length = 1) :
    v.normalize = v := by
  rw [Vec3.normalize, hv]
  norm_num [Vec3.divideScalar]

/-- Helper: the angular separation of the first basis vector with itself
is zero. -/
theorem angleBetween_e1_e1 :
    Curves.angleBetween (Vec3.mk 1 0 0) (Vec3.mk 1 0 0) = 0 := by
  rw [Curves.angleBetween, normalize_of_length_one _ vec100_length]
  have hdot : (Vec3.mk 1 0 0).dot (Vec3.mk 1 0 0) = 1 := by
    rw [Vec3.dot]; norm_num
  rw [hdot]
  norm_num [Real.arccos_one]

/-- Helper: the angular separation of the two basis vectors is pi/2. -/
theorem angleBetween_e1_e2 :
    Curves.angleBetween (Vec3.mk 1 0 0) (Vec3.mk 0 1 0) = Real.pi / 2 := by
  rw [Curves.angleBetween, normalize_of_length_one _ vec100_length,
    normalize_of_length_one _ vec010_length]
  have hdot : (Vec3.mk 1 0 0).dot (Vec3.mk 0 1 0) = 0 := by
    rw [Vec3.dot]; norm_num
  rw [hdot]
  norm_num [Real.arccos_zero]

/-- C1 witness: with A = B = (1,0,0) and C = (0,1,0), the angle 0 is less
than pi/2 and the computed arc heights are strictly ordered. -/
theorem calculateArcHeight_strictMono_witness :
    (Vec3.mk 1 0 0).length = 1 ∧ (Vec3.mk 0 1 0).length = 1 ∧
    Curves.angleBetween (Vec3.mk 1 0 0) (Vec3.mk 1 0 0) <
      Curves.angleBetween (Vec3.mk 1 0 0) (Vec3.mk 0 1 0) ∧
    Curves.calculateArcHeight (Vec3.mk 1 0 0) (Vec3.mk 1 0 0) <
      Curves.calculateArcHeight (Vec3.mk 1 0 0) (Vec3.mk 0 1 0) := by
  have hangle : Curves.angleBetween (Vec3.mk 1 0 0) (Vec3.mk 1 0 0) <
      Curves.angleBetween (Vec3.mk 1 0 0) (Vec3.mk 0 1 0) := by
    rw [angleBetween_e1_e1, angleBetween_e1_e2]
    positivity
  exact ⟨vec100_length, vec010_length, hangle,
    (calculateArcHeight_strictMono (Vec3.mk 1 0 0) (Vec3.mk 1 0 0)
      (Vec3.mk 0 1 0) vec100_length vec100_length vec010_length hangle).1⟩

/-- Helper: the consecutive-pair loop produces one segment fewer than the
number of positions. -/
theorem pairSegments_length (l : List Vec3) :
    (Curves.pairSegments l).length = l.length - 1 := by
  induction l with
  | nil => simp [Curves.pairSegments]
  | cons p rest ih =>
    cases rest with
    | nil => simp [Curves.pairSegments]
    | cons q rest' =>
      simp only [Curves.pairSegments, List.length_cons] at ih ⊢
      omega

/-- Helper: segment i of the consecutive-pair loop joins positions i and
i+1. -/
theorem pairSegments_getElem? (l : List Vec3) (i : ℕ) (a b : Vec3)
    (ha : l[i]? = some a) (hb : l[i + 1]? = some b) :
    (Curves.pairSegments l)[i]? = some (Curves.makeSegment a b) := by
  induction l generalizing i with
  | nil => simp at ha
  | cons p rest ih =>
    cases rest with
    | nil =>
      rcases i with _ | i <;> simp at hb
    | cons q rest' =>
      rcases i with _ | i
      · simp only [List.getElem?_cons_zero, Option.some.injEq] at ha
        simp only [List.getElem?_cons_succ, List.getElem?_cons_zero,
          Option.some.injEq] at hb
        subst ha; subst hb
        simp [Curves.pairSegments]
      · rw [List.getElem?_cons_succ] at ha
        rw [List.getElem?_cons_succ] at hb
        simpa [Curves.pairSegments] using ih i ha hb

/-- C2: for n >= 2 input points, createCurvesBetweenMarkers builds exactly
n - 1 consecutive segments in input order plus one closing segment from the
last position to the first exactly when closeLoop is true and n > 2. -/
theorem createCurvesBetweenMarkers_segments (affs : List Curves.LatLon)
    (closeLoop : Bool) (h2 : 2 ≤ affs.length) :
    ((Curves.createCurvesBetweenMarkers affs closeLoop).length
        = affs.length - 1 +
          if closeLoop = true ∧ 2 < affs.length then 1 else 0) ∧
    (∀ (i : ℕ) (a b : Vec3),
      (affs.map fun aff => latLonToVector3 aff.latitude aff.longitude
        Curves.MARKER_RADIUS)[i]? = some a →
      (affs.map fun aff => latLonToVector3 aff.latitude aff.longitude
        Curves.MARKER_RADIUS)[i + 1]? = some b →
      (Curves.createCurvesBetweenMarkers affs closeLoop)[i]?
        = some (Curves.makeSegment a b)) ∧
    (closeLoop = true → 2 < affs.length → ∀ (pl pf : Vec3),
      (affs.map fun aff => latLonToVector3 aff.latitude aff.longitude
        Curves.MARKER_RADIUS).getLast? = some pl →
      (affs.map fun aff => latLonToVector3 aff.latitude aff.longitude
        Curves.MARKER_RADIUS).head? = some pf →
      (Curves.createCurvesBetweenMarkers affs closeLoop)[affs.length - 1]?
        = some (Curves.makeSegment pl pf)) := by
  have hnotlt : ¬ affs.length < 2 := by omega
  set positions := affs.map fun aff =>
    latLonToVector3 aff.latitude aff.longitude Curves.MARKER_RADIUS with hpos
  have hplen : positions.length = affs.length := List.length_map _ _
  have hpne : positions ≠ [] := by
    intro hcon
    rw [hcon] at hplen
    simp at hplen
    omega
  have hlast : ∃ pl, positions.getLast? = some pl := by
    cases hg : positions.getLast? with
    | none => exact absurd (List.getLast?_eq_none_iff.mp hg) hpne
    | some pl => exact ⟨pl, rfl⟩
  have hhead : ∃ pf, positions.head? = some pf := by
    cases hg : positions.head? with
    | none => exact absurd (List.head?_eq_none_iff.mp hg) hpne
    | some pf => exact ⟨pf, rfl⟩
  obtain ⟨pl, hpl⟩ := hlast
  obtain ⟨pf, hpf⟩ := hhead
  have hresult : Curves.createCurvesBetweenMarkers affs closeLoop =
      if closeLoop = true ∧ 2 < affs.length then
        Curves.pairSegments positions ++ [Curves.makeSegment pl pf]
      else Curves.pairSegments positions := by
    rw [Curves.createCurvesBetweenMarkers, if_neg hnotlt]
    simp only [← hpos, hplen, hpl, hpf]
  refine ⟨?_, ?_, ?_⟩
  · rw [hresult]
    by_cases hcond : closeLoop = true ∧ 2 < affs.length
    · simp only [if_pos hcond, List.length_append, List.length_cons,
        List.length_nil, pairSegments_length, hplen]
    · simp only [if_neg hcond, pairSegments_length, hplen]
      omega
  · intro i a b ha hb
    have hib : i + 1 < positions.length := by
      by_contra hge
      rw [List.getElem?_eq_none (by omega)] at hb
      exact Option.noConfusion hb
    have hseg := pairSegments_getElem? positions i a b ha hb
    have hilt : i < (Curves.pairSegments positions).length := by
      rw [pairSegments_length]; omega
    rw [hresult]
    by_cases hcond : closeLoop = true ∧ 2 < affs.length
    · rw [if_pos hcond]
      rw [List.getElem?_append_left hilt]
      exact hseg
    · rw [if_neg hcond]
      exact hseg
  · intro hcl hgt pl' pf' hpl' hpf'
    have hpleq : pl' = pl := by
      rw [hpl] at hpl'
      exact (Option.some.injEq _ _ ▸ hpl').symm
    have hpfeq : pf' = pf := by
      rw [hpf] at hpf'
      exact (Option.some.injEq _ _ ▸ hpf').symm
    subst hpleq; subst hpfeq
    rw [hresult, if_pos ⟨hcl, hgt⟩]
    have hidx : affs.length - 1 = (Curves.pairSegments positions).length := by
      rw [pairSegments_length, hplen]
    rw [hidx]
    exact List.getElem?_concat_length _ _

/-- C2 witness: with closeLoop set, 2 input points give exactly 1 segment
and 3 input points give exactly 3 segments. -/
theorem createCurvesBetweenMarkers_segments_witness :
    2 ≤ ([⟨10, 20⟩, ⟨30, 40⟩] : List Curves.LatLon).length ∧
    (Curves.createCurvesBetweenMarkers [⟨10, 20⟩, ⟨30, 40⟩] true).length = 1 ∧
    (Curves.createCurvesBetweenMarkers
      [⟨10, 20⟩, ⟨30, 40⟩, ⟨50, 60⟩] true).length = 3 := by
  refine ⟨by norm_num, ?_, ?_⟩
  · have h := (createCurvesBetweenMarkers_segments [⟨10, 20⟩, ⟨30, 40⟩] true
      (by norm_num)).1
    rw [h]
    norm_num
  · have h := (createCurvesBetweenMarkers_segments
      [⟨10, 20⟩, ⟨30, 40⟩, ⟨50, 60⟩] true (by norm_num)).1
    rw [h]
    norm_num

/-- C7: fewer than 2 points (after the geocoded filter in the globeUtils
variant) yields an empty curve group rather than a failure, and the
globeUtils variant records its console warning. -/
theorem createCurvesBetweenMarkers_too_few (l : List Curves.LatLon) (b : Bool)
    (hl : l.length < 2) (affs : List GlobeUtils.GAffiliation) (r : ℝ)
    (cb : Bool)
    (haffs : (affs.filter fun aff => aff.geocoded != some false).length < 2) :
    Curves.createCurvesBetweenMarkers l b = [] ∧
    (GlobeUtils.createCurvesBetweenMarkers affs r cb).segments = [] ∧
    (GlobeUtils.createCurvesBetweenMarkers affs r cb).warnedTooFew = true := by
  refine ⟨?_, ?_, ?_⟩
  · rw [Curves.createCurvesBetweenMarkers, if_pos hl]
  · rw [GlobeUtils.createCurvesBetweenMarkers]
    simp only [if_pos haffs]
  · rw [GlobeUtils.createCurvesBetweenMarkers]
    simp only [if_pos haffs]

/-- C7 witness: a single point (and a single geocoded affiliation) produce
the empty group, with the warning flagged in the globeUtils variant. -/
theorem createCurvesBetweenMarkers_too_few_witness :
    ([⟨10, 20⟩] : List Curves.LatLon).length < 2 ∧
    (([⟨10, 20, some true⟩] : List GlobeUtils.GAffiliation).filter
      fun aff => aff.geocoded != some false).length < 2 ∧
    Curves.createCurvesBetweenMarkers [⟨10, 20⟩] false = [] ∧
    (GlobeUtils.createCurvesBetweenMarkers [⟨10, 20, some true⟩]
      1.005 true).segments = [] ∧
    (GlobeUtils.createCurvesBetweenMarkers [⟨10, 20, some true⟩]
      1.005 true).warnedTooFew = true := by
  have hl : ([⟨10, 20⟩] : List Curves.LatLon).length < 2 := by norm_num
  have haffs : (([⟨10, 20, some true⟩] : List GlobeUtils.GAffiliation).filter
      fun aff => aff.geocoded != some false).length < 2 := by
    decide
  have h := createCurvesBetweenMarkers_too_few [⟨10, 20⟩] false hl
    [⟨10, 20, some true⟩] 1.005 true haffs
  exact ⟨hl, haffs, h.1, h.2.1, h.2.2⟩

/-- C3: the valid subset keeps exactly the entries whose geocoded flag is
set and whose latitude and longitude are both non-null; on the three-entry
example only the first entry survives. -/
theorem filterValidAffiliations_spec :
    (∀ (l : List Affiliation) (a : Affiliation),
      a ∈ filterValidAffiliations l ↔
        a ∈ l ∧ a.geocoded = true ∧ a.latitude ≠ none ∧ a.longitude ≠ none) ∧
    filterValidAffiliations
      [⟨"A", none, "X", some 10, some 20, true⟩,
        ⟨"B", none, "Y", none, none, false⟩,
        ⟨"C", none, "Z", none, some 30, true⟩]
      = [⟨"A", none, "X", some 10, some 20, true⟩] := by
  constructor
  · intro l a
    rw [filterValidAffiliations, List.mem_filter]
    simp only [isValidAffiliation, Bool.and_eq_true,
      Option.isSome_iff_ne_none, and_assoc]
  · rfl

/-- C9: updateMarkerPulse maps the group pointwise, setting every marker's
scale to the uniform scalar 1 + sin(time * 2) * 0.3 (the same value for
all markers) while leaving position and color untouched. -/
theorem updateMarkerPulse_spec (markerGroup : List Marker) (time : ℝ) :
    List.Forall₂ (fun m m' =>
      m'.scale = ⟨1.0 + Real.sin (time * 2.0) * 0.3,
        1.0 + Real.sin (time * 2.0) * 0.3,
        1.0 + Real.sin (time * 2.0) * 0.3⟩ ∧
      m'.position = m.position ∧ m'.color = m.color)
      markerGroup (updateMarkerPulse markerGroup time) := by
  induction markerGroup with
  | nil => simp [updateMarkerPulse]
  | cons m rest ih =>
    simp only [updateMarkerPulse, List.map_cons] at ih ⊢
    exact List.Forall₂.cons ⟨rfl, rfl, rfl⟩ ih

/-- C3 witness: the concrete three-entry affiliation list filters to
exactly its first entry. -/
theorem filterValidAffiliations_spec_witness :
    filterValidAffiliations
      [⟨"A", none, "X", some 10, some 20, true⟩,
        ⟨"B", none, "Y", none, none, false⟩,
        ⟨"C", none, "Z", none, some 30, true⟩]
      = [⟨"A", none, "X", some 10, some 20, true⟩] :=
  filterValidAffiliations_spec.2

/-- C9 witness: pulsing a concrete one-marker group at time 0 keeps its
position and color and sets the uniform scale. -/
theorem updateMarkerPulse_spec_witness :
    List.Forall₂ (fun m m' : Marker =>
      m'.scale = ⟨1.0 + Real.sin ((0:ℝ) * 2.0) * 0.3,
        1.0 + Real.sin ((0:ℝ) * 2.0) * 0.3,
        1.0 + Real.sin ((0:ℝ) * 2.0) * 0.3⟩ ∧
      m'.position = m.position ∧ m'.color = m.color)
      [⟨⟨1, 2, 3⟩, ⟨1, 1, 1⟩, 5⟩]
      (updateMarkerPulse [⟨⟨1, 2, 3⟩, ⟨1, 1, 1⟩, 5⟩] 0) :=
  updateMarkerPulse_spec [⟨⟨1, 2, 3⟩, ⟨1, 1, 1⟩, 5⟩] 0

/-- Helper: the position of the north-pole marker point. -/
theorem northPole_position (lon : ℝ) :
    latLonToVector3 90 lon Curves.MARKER_RADIUS = ⟨0, 1.005, 0⟩ := by
  have h0 : ((90:ℝ) - 90) * DEG2RAD = 0 := by ring
  simp only [latLonToVector3, Curves.MARKER_RADIUS, h0, Real.sin_zero,
    Real.cos_zero, Vec3.mk.injEq]
  refine ⟨by ring, by norm_num, by ring⟩

/-- Helper: length of the north-pole marker point. -/
theorem northPole_length : (Vec3.mk 0 (1.005:ℝ) 0).length = 1.005 := by
  rw [Vec3.length]
  have h : (0:ℝ) * 0 + 1.005 * 1.005 + 0 * 0 = 1.005 ^ 2 := by norm_num
  rw [h, Real.sqrt_sq (by norm_num)]

/-- Helper: the radial direction at the north pole is the y axis. -/
theorem northPole_radialDir (lon : ℝ) :
    Curves.selfLoopRadialDir ⟨90, lon⟩ = ⟨0, 1, 0⟩ := by
  rw [Curves.selfLoopRadialDir]
  show (latLonToVector3 90 lon Curves.MARKER_RADIUS).normalize = _
  rw [northPole_position, Vec3.normalize, northPole_length,
    if_neg (by norm_num), Vec3.divideScalar]
  simp only [Vec3.mk.injEq]
  norm_num

/-- Helper: the fallback tangent at the north pole is the z axis. -/
theorem northPole_tangent (lon : ℝ) :
    Curves.selfLoopTangent ⟨90, lon⟩ = ⟨0, 0, 1⟩ := by
  rw [Curves.selfLoopTangent]
  simp only [northPole_radialDir]
  rw [if_pos (by norm_num)]
  have hcross : (Vec3.mk 1 0 0).cross ⟨0, 1, 0⟩ = ⟨0, 0, 1⟩ := by
    rw [Vec3.cross]
    simp only [Vec3.mk.injEq]
    norm_num
  rw [hcross]
  apply normalize_of_length_one
  rw [Vec3.length]
  norm_num

/-- C8: for a point exactly at the north pole, the fallback reference axis
triggers (|radialDir.y| > 0.99), the tangent is a well-defined nonzero unit
vector, and both control points of the self-loop differ from the base
point. -/
theorem createSelfLoopCurve_north_pole (lon : ℝ) :
    0.99 < |(Curves.selfLoopRadialDir ⟨90, lon⟩).y| ∧
    (Curves.selfLoopTangent ⟨90, lon⟩).length = 1 ∧
    Curves.selfLoopTangent ⟨90, lon⟩ ≠ Vec3.zero ∧
    Curves.selfLoopControl1 ⟨90, lon⟩ ≠
      (Curves.createSelfLoopCurve ⟨90, lon⟩).p1 ∧
    Curves.selfLoopControl2 ⟨90, lon⟩ ≠
      (Curves.createSelfLoopCurve ⟨90, lon⟩).p1 := by
  have hp1 : (Curves.createSelfLoopCurve ⟨90, lon⟩).p1 = ⟨0, 1.005, 0⟩ := by
    rw [Curves.createSelfLoopCurve]
    show latLonToVector3 90 lon Curves.MARKER_RADIUS = _
    exact northPole_position lon
  have hc1 : (Curves.selfLoopControl1 ⟨90, lon⟩).z = 0.5 := by
    rw [Curves.selfLoopControl1]
    show (((latLonToVector3 90 lon Curves.MARKER_RADIUS).add
      ((Curves.selfLoopTangent ⟨90, lon⟩).multiplyScalar Curves.loopHeight)).add
      ((Curves.selfLoopRadialDir ⟨90, lon⟩).multiplyScalar
        (Curves.loopHeight * 0.5))).z = 0.5
    rw [northPole_position, northPole_tangent, northPole_radialDir,
      Curves.loopHeight]
    simp only [Vec3.add, Vec3.multiplyScalar]
    norm_num
  have hc2 : (Curves.selfLoopControl2 ⟨90, lon⟩).z = -0.5 := by
    rw [Curves.selfLoopControl2]
    show (((latLonToVector3 90 lon Curves.MARKER_RADIUS).add
      ((Curves.selfLoopTangent ⟨90, lon⟩).multiplyScalar
        (-Curves.loopHeight))).add
      ((Curves.selfLoopRadialDir ⟨90, lon⟩).multiplyScalar
        (Curves.loopHeight * 0.5))).z = -0.5
    rw [northPole_position, northPole_tangent, northPole_radialDir,
      Curves.loopHeight]
    simp only [Vec3.add, Vec3.multiplyScalar]
    norm_num
  refine ⟨?_, ?_, ?_, ?_, ?_⟩
  · rw [northPole_radialDir]
    norm_num
  · rw [northPole_tangent, Vec3.length]
    norm_num
  · rw [northPole_tangent]
    intro hcon
    rw [Vec3.zero] at hcon
    have := congrArg Vec3.z hcon
    norm_num at this
  · intro hcon
    have hz := congrArg Vec3.z hcon
    rw [hc1, hp1] at hz
    norm_num at hz
  · intro hcon
    have hz := congrArg Vec3.z hcon
    rw [hc2, hp1] at hz
    norm_num at hz

/-- C8 witness: the north-pole self loop at longitude 0 takes the fallback
axis and yields a unit tangent with control points off the base point. -/
theorem createSelfLoopCurve_north_pole_witness :
    0.99 < |(Curves.selfLoopRadialDir ⟨90, 0⟩).y| ∧
    (Curves.selfLoopTangent ⟨90, 0⟩).length = 1 ∧
    Curves.selfLoopTangent ⟨90, 0⟩ ≠ Vec3.zero ∧
    Curves.selfLoopControl1 ⟨90, 0⟩ ≠
      (Curves.createSelfLoopCurve ⟨90, 0⟩).p1 ∧
    Curves.selfLoopControl2 ⟨90, 0⟩ ≠
      (Curves.createSelfLoopCurve ⟨90, 0⟩).p1 :=
  createSelfLoopCurve_north_pole 0

/-- Helper: the JS remainder of a value in [0, 360] by 360 lies in
[0, 360). -/
theorem jsMod_bounds (x : ℝ) (h0 : 0 ≤ x) (h1 : x ≤ 360) :
    0 ≤ jsMod x 360 ∧ jsMod x 360 < 360 := by
  rw [jsMod, rtrunc, if_pos (by positivity)]
  rcases lt_or_eq_of_le h1 with hlt | heq
  · have hfloor : ⌊x / 360⌋ = 0 := by
      rw [Int.floor_eq_zero_iff]
      constructor
      · positivity
      · exact (div_lt_one (by norm_num)).mpr hlt
    rw [hfloor]
    push_cast
    constructor <;> linarith
  · subst heq
    norm_num

/-- Helper: the pixel column is nonnegative for longitudes in range, and
within the image width when the width is positive. -/
theorem pixelColumn_bounds (w : ℕ) (long : ℝ) (h0 : -180 ≤ long)
    (h1 : long ≤ 180) :
    0 ≤ pixelColumnOf w long ∧ (0 < w → pixelColumnOf w long < w) := by
  obtain ⟨hm0, hm1⟩ := jsMod_bounds (long + 180) (by linarith) (by linarith)
  constructor
  · rw [pixelColumnOf]
    exact Int.floor_nonneg.mpr (mul_nonneg (by positivity) hm0)
  · intro hw
    rw [pixelColumnOf, Int.floor_lt]
    have hwpos : (0:ℝ) < w := by exact_mod_cast hw
    have hmul : (w:ℝ) / 360 * jsMod (long + 180) 360 < (w:ℝ) / 360 * 360 :=
      mul_lt_mul_of_pos_left hm1 (by positivity)
    have heq : (w:ℝ) / 360 * 360 = w := by field_simp
    push_cast
    linarith

/-- Helper: the pixel row is nonnegative for lat <= 90, and within the
image height when lat > -90 and the height is positive. -/
theorem pixelRow_bounds (h : ℕ) (lat : ℝ) (hlat1 : -90 < lat)
    (hlat2 : lat ≤ 90) (hh : 0 < h) :
    0 ≤ pixelRowOf h lat ∧ pixelRowOf h lat < h := by
  have hhpos : (0:ℝ) < h := by exact_mod_cast hh
  constructor
  · rw [pixelRowOf]
    exact Int.floor_nonneg.mpr (mul_nonneg (by positivity) (by linarith))
  · rw [pixelRowOf, Int.floor_lt]
    have hmul : (h:ℝ) / 180 * (-lat + 90) < (h:ℝ) / 180 * 180 :=
      mul_lt_mul_of_pos_left (by linarith) (by positivity)
    have heq : (h:ℝ) / 180 * 180 = h := by field_simp
    push_cast
    linarith

/-- Helper: a JS typed-array read at an index at or past the end of the
buffer yields undefined. -/
theorem byteGet_oob (data : List ℕ) (i : ℤ) (h : (data.length : ℤ) ≤ i) :
    byteGet data i = none := by
  rw [byteGet]
  by_cases h0 : 0 ≤ i
  · rw [if_pos h0]
    refine List.get?_eq_none.mpr ?_
    omega
  · rw [if_neg h0]

/-- C10: isLandPixelVisible is total: it returns false with no image; at
latitude exactly -90 the computed row equals imgHeight, one past the last
row, so the alpha lookup is out of bounds and the sample is classified as
water (false) rather than erroring; and for lat in (-90, 90] both computed
indices are within the image bounds. -/
theorem isLandPixelVisible_total :
    (∀ (long lat : ℝ), isLandPixelVisible long lat none = false) ∧
    (∀ (img : ImageData) (long : ℝ), -180 ≤ long → long ≤ 180 →
      img.data.length = img.height * img.width * 4 →
      pixelRowOf img.height (-90) = img.height ∧
      isLandPixelVisible long (-90) (some img) = false) ∧
    (∀ (img : ImageData) (long lat : ℝ), -180 ≤ long → long ≤ 180 →
      -90 < lat → lat ≤ 90 → 0 < img.width → 0 < img.height →
      (0 ≤ pixelRowOf img.height lat ∧
        pixelRowOf img.height lat < img.height) ∧
      (0 ≤ pixelColumnOf img.width long ∧
        pixelColumnOf img.width long < img.width)) := by
  refine ⟨fun long lat => rfl, ?_, ?_⟩
  · intro img long hl0 hl1 hdata
    have hrow : pixelRowOf img.height (-90) = img.height := by
      rw [pixelRowOf]
      have : (img.height : ℝ) / 180 * (-(-90) + 90) = img.height := by
        ring
      rw [this, Int.floor_natCast]
    refine ⟨hrow, ?_⟩
    have hcol0 : 0 ≤ pixelColumnOf img.width long :=
      (pixelColumn_bounds img.width long hl0 hl1).1
    have hoob : (img.data.length : ℤ) ≤
        pixelRowOf img.height (-90) * img.width * 4 +
          pixelColumnOf img.width long * 4 + 3 := by
      rw [hrow, hdata]
      push_cast
      linarith
    simp only [isLandPixelVisible, byteGet_oob img.data _ hoob]
  · intro img long lat hl0 hl1 hlat1 hlat2 hw hh
    exact ⟨pixelRow_bounds img.height lat hlat1 hlat2 hh,
      (pixelColumn_bounds img.width long hl0 hl1).1,
      (pixelColumn_bounds img.width long hl0 hl1).2 hw⟩

/-- C10 witness: on a concrete 2x1 image, the lookup at latitude -90 is out
of bounds and yields water, and at latitude 45 the indices are in
bounds. -/
theorem isLandPixelVisible_total_witness :
    isLandPixelVisible 0 45 none = false ∧
    (([0, 0, 0, 200, 0, 0, 0, 0] : List ℕ).length = 1 * 2 * 4 ∧
      pixelRowOf 1 (-90) = 1 ∧
      isLandPixelVisible 0 (-90) (some ⟨2, 1, [0, 0, 0, 200, 0, 0, 0, 0]⟩)
        = false) ∧
    ((0 ≤ pixelRowOf 1 45 ∧ pixelRowOf 1 45 < 1) ∧
      (0 ≤ pixelColumnOf 2 0 ∧ pixelColumnOf 2 0 < 2)) := by
  refine ⟨isLandPixelVisible_total.1 0 45, ?_, ?_⟩
  · have h := isLandPixelVisible_total.2.1 ⟨2, 1, [0, 0, 0, 200, 0, 0, 0, 0]⟩
      0 (by norm_num) (by norm_num) (by norm_num)
    exact ⟨by norm_num, h.1, h.2⟩
  · exact isLandPixelVisible_total.2.2 ⟨2, 1, [0, 0, 0, 200, 0, 0, 0, 0]⟩
      0 45 (by norm_num) (by norm_num) (by norm_num) (by norm_num)
      (by norm_num) (by norm_num)

/-- C6 witness: at radius 2 the north- and south-pole points agree for
longitudes 0 and 90. -/
theorem latLonToVector3_poles_witness :
    ((-180 ≤ (0:ℝ) ∧ (0:ℝ) ≤ 180) ∧ (-180 ≤ (90:ℝ) ∧ (90:ℝ) ≤ 180)) ∧
    latLonToVector3 90 0 2 = latLonToVector3 90 90 2 ∧
    latLonToVector3 (-90) 0 2 = latLonToVector3 (-90) 90 2 := by
  refine ⟨⟨⟨by norm_num, by norm_num⟩, ⟨by norm_num, by norm_num⟩⟩, ?_⟩
  exact latLonToVector3_poles 2 0 90 ⟨by norm_num, by norm_num⟩
    ⟨by norm_num, by norm_num⟩

/-- Helper: the first while loop does nothing when the difference is
already at most pi. -/
theorem normPos_of_le (x : ℝ) (h : x ≤ Real.pi) : normPos x = x := by
  rw [normPos, dif_neg (not_lt.mpr h)]

/-- Helper: the second while loop does nothing when the difference is
already at least -pi. -/
theorem normNeg_of_ge (x : ℝ) (h : -Real.pi ≤ x) : normNeg x = x := by
  rw [normNeg, dif_neg (not_lt.mpr h)]

/-- Helper: the first while loop ends with a value at most pi. -/
theorem normPos_le (x : ℝ) : normPos x ≤ Real.pi := by
  induction x using normPos.induct with
  | case1 x h ih =>
    rw [normPos, dif_pos h]
    exact ih
  | case2 x h =>
    rw [normPos, dif_neg h]
    exact not_lt.mp h

/-- Helper: the second while loop ends with a value at least -pi. -/
theorem normNeg_ge (x : ℝ) : -Real.pi ≤ normNeg x := by
  induction x using normNeg.induct with
  | case1 x h ih =>
    rw [normNeg, dif_pos h]
    exact ih
  | case2 x h =>
    rw [normNeg, dif_neg h]
    exact not_lt.mp h

/-- Helper: the second while loop preserves an upper bound of pi. -/
theorem normNeg_le (x : ℝ) : x ≤ Real.pi → normNeg x ≤ Real.pi := by
  induction x using normNeg.induct with
  | case1 x h ih =>
    intro hx
    rw [normNeg, dif_pos h]
    have hπ := Real.pi_pos
    exact ih (by linarith)
  | case2 x h =>
    intro hx
    rw [normNeg, dif_neg h]
    exact hx

/-- Helper: the first while loop only shifts its input by whole turns. -/
theorem normPos_shift (x : ℝ) : ∃ k : ℤ, normPos x = x + 2 * Real.pi * k := by
  induction x using normPos.induct with
  | case1 x h ih =>
    obtain ⟨k, hk⟩ := ih
    refine ⟨k - 1, ?_⟩
    rw [normPos, dif_pos h, hk]
    push_cast
    ring
  | case2 x h =>
    refine ⟨0, ?_⟩
    rw [normPos, dif_neg h]
    push_cast
    ring

/-- Helper: the second while loop only shifts its input by whole turns. -/
theorem normNeg_shift (x : ℝ) : ∃ k : ℤ, normNeg x = x + 2 * Real.pi * k := by
  induction x using normNeg.induct with
  | case1 x h ih =>
    obtain ⟨k, hk⟩ := ih
    refine ⟨k + 1, ?_⟩
    rw [normNeg, dif_pos h, hk]
    push_cast
    ring
  | case2 x h =>
    refine ⟨0, ?_⟩
    rw [normNeg, dif_neg h]
    push_cast
    ring

/-- Helper: the normalized difference lies in the closed interval
[-pi, pi]. -/
theorem normalizeAngle_mem (x : ℝ) :
    -Real.pi ≤ normalizeAngle x ∧ normalizeAngle x ≤ Real.pi :=
  ⟨normNeg_ge (normPos x), normNeg_le (normPos x) (normPos_le x)⟩

/-- Helper: normalization is the identity on [-pi, pi]. -/
theorem normalizeAngle_eq_self (x : ℝ) (h1 : -Real.pi ≤ x)
    (h2 : x ≤ Real.pi) : normalizeAngle x = x := by
  rw [normalizeAngle, normPos_of_le x h2, normNeg_of_ge x h1]

/-- Helper: normalization shifts its input by a whole number of turns. -/
theorem normalizeAngle_shift (x : ℝ) :
    ∃ k : ℤ, normalizeAngle x = x + 2 * Real.pi * k := by
  obtain ⟨k₁, hk₁⟩ := normPos_shift x
  obtain ⟨k₂, hk₂⟩ := normNeg_shift (normPos x)
  refine ⟨k₁ + k₂, ?_⟩
  rw [normalizeAngle, hk₂, hk₁]
  push_cast
  ring

/-- Helper: adding whole positive turns to an interior angle does not
change its normalization. -/
theorem normPos_add_turns (n : ℕ) (y : ℝ) (h1 : -Real.pi < y)
    (h2 : y ≤ Real.pi) : normPos (y + 2 * Real.pi * n) = y := by
  induction n with
  | zero =>
    simp only [Nat.cast_zero, mul_zero, add_zero]
    exact normPos_of_le y h2
  | succ n ih =>
    have hπ := Real.pi_pos
    have hgt : Real.pi < y + 2 * Real.pi * (n + 1 : ℕ) := by
      push_cast
      nlinarith [Nat.cast_nonneg (α := ℝ) n]
    rw [normPos, dif_pos hgt]
    have harg : y + 2 * Real.pi * (n + 1 : ℕ) - 2 * Real.pi
        = y + 2 * Real.pi * n := by
      push_cast
      ring
    rw [harg]
    exact ih

/-- Helper: subtracting whole turns from an interior angle does not change
its normalization by the second loop. -/
theorem normNeg_sub_turns (n : ℕ) (y : ℝ) (h1 : -Real.pi ≤ y)
    (h2 : y < Real.pi) : normNeg (y - 2 * Real.pi * n) = y := by
  induction n with
  | zero =>
    simp only [Nat.cast_zero, mul_zero, sub_zero]
    exact normNeg_of_ge y h1
  | succ n ih =>
    have hπ := Real.pi_pos
    have hlt : y - 2 * Real.pi * (n + 1 : ℕ) < -Real.pi := by
      push_cast
      nlinarith [Nat.cast_nonneg (α := ℝ) n]
    rw [normNeg, dif_pos hlt]
    have harg : y - 2 * Real.pi * (n + 1 : ℕ) + 2 * Real.pi
        = y - 2 * Real.pi * n := by
      push_cast
      ring
    rw [harg]
    exact ih

/-- Helper: normalization cancels any whole number of turns added to an
angle strictly inside (-pi, pi). -/
theorem normalizeAngle_add_turns (k : ℤ) (y : ℝ) (h1 : -Real.pi < y)
    (h2 : y < Real.pi) : normalizeAngle (y + 2 * Real.pi * k) = y := by
  rcases k with n | n
  · have harg : y + 2 * Real.pi * (Int.ofNat n : ℤ) = y + 2 * Real.pi * n := by
      push_cast [Int.ofNat_eq_natCast]
      ring
    rw [harg, normalizeAngle, normPos_add_turns n y h1 h2.le,
      normNeg_of_ge y h1.le]
  · have harg : y + 2 * Real.pi * (Int.negSucc n : ℤ)
        = y - 2 * Real.pi * (n + 1 : ℕ) := by
      push_cast
      ring
    have hπ := Real.pi_pos
    have hle : y - 2 * Real.pi * (n + 1 : ℕ) ≤ Real.pi := by
      push_cast
      nlinarith [Nat.cast_nonneg (α := ℝ) n]
    rw [harg, normalizeAngle, normPos_of_le _ hle,
      normNeg_sub_turns (n + 1) y h1.le h2]

/-- Helper: the damping factor decay of the diff stays strictly inside
(-pi, pi) after at least one step. -/
theorem decay_interior (d₀ : ℝ) (hd : |d₀| ≤ Real.pi) (n : ℕ) :
    |(0.95:ℝ) ^ (n + 1) * d₀| < Real.pi := by
  have hπ := Real.pi_pos
  have hpow : (0.95:ℝ) ^ n ≤ 1 := pow_le_one₀ (by norm_num) (by norm_num)
  have hpow0 : (0:ℝ) < 0.95 ^ n := pow_pos (by norm_num) n
  have habs : |(0.95:ℝ) ^ (n + 1) * d₀| = 0.95 ^ n * 0.95 * |d₀| := by
    rw [abs_mul, abs_of_pos (pow_pos (by norm_num) (n + 1)), pow_succ]
  rw [habs]
  nlinarith [abs_nonneg d₀]

/-- Helper: the normalized diff seen at step n equals the damped initial
diff shifted back by the initial whole-turn offset. -/
theorem seek_diff_formula (c₀ target d₀ : ℝ) (k₀ : ℤ)
    (hd : normalizeAngle (target - c₀) = d₀)
    (hk : d₀ = (target - c₀) + 2 * Real.pi * k₀) (n : ℕ) :
    normalizeAngle ((0.95:ℝ) ^ n * d₀ - 2 * Real.pi * k₀)
      = (0.95:ℝ) ^ n * d₀ := by
  rcases n with _ | m
  · have harg : (0.95:ℝ) ^ 0 * d₀ - 2 * Real.pi * k₀ = target - c₀ := by
      rw [pow_zero, one_mul, hk]
      ring
    rw [harg, hd, pow_zero, one_mul]
  · have hdabs : |d₀| ≤ Real.pi := by
      rw [← hd]
      exact abs_le.mpr (normalizeAngle_mem (target - c₀))
    have hint := decay_interior d₀ hdabs m
    have harg : (0.95:ℝ) ^ (m + 1) * d₀ - 2 * Real.pi * k₀
        = (0.95:ℝ) ^ (m + 1) * d₀ + 2 * Real.pi * (-k₀) := by
      ring
    rw [harg]
    have hres := normalizeAngle_add_turns (-k₀) ((0.95:ℝ) ^ (m + 1) * d₀)
      (abs_lt.mp hint).1 (abs_lt.mp hint).2
    rw [Int.cast_neg] at hres
    exact hres

/-- Helper: while no snap has occurred, the render loop state after n
frames holds the damped current angle, the unchanged target and the
rotating flag. -/
theorem seek_invariant (c₀ target d₀ : ℝ) (k₀ : ℤ)
    (hd : normalizeAngle (target - c₀) = d₀)
    (hk : d₀ = (target - c₀) + 2 * Real.pi * k₀) (n : ℕ)
    (hyp : ∀ m : ℕ, m < n → 0.01 ≤ |(0.95:ℝ) ^ m * d₀|) :
    seekStep^[n] ⟨c₀, target, true⟩ =
      ⟨target - (0.95:ℝ) ^ n * d₀ + 2 * Real.pi * k₀, target, true⟩ := by
  induction n with
  | zero =>
    rw [Function.iterate_zero_apply]
    have hc₀ : c₀ = target - (0.95:ℝ) ^ 0 * d₀ + 2 * Real.pi * k₀ := by
      rw [pow_zero, one_mul]
      linarith [hk]
    rw [hc₀]
  | succ n ih =>
    have hih := ih fun m hm => hyp m (by omega)
    rw [Function.iterate_succ_apply', hih]
    simp only [seekStep]
    have harg : target - (target - (0.95:ℝ) ^ n * d₀ + 2 * Real.pi * k₀)
        = (0.95:ℝ) ^ n * d₀ - 2 * Real.pi * k₀ := by
      ring
    rw [harg, seek_diff_formula c₀ target d₀ k₀ hd hk n]
    rw [if_pos trivial, if_neg (not_lt.mpr (hyp n (by omega)))]
    have hcur : target - (0.95:ℝ) ^ n * d₀ + 2 * Real.pi * k₀
        + (0.95:ℝ) ^ n * d₀ * 0.05
        = target - (0.95:ℝ) ^ (n + 1) * d₀ + 2 * Real.pi * k₀ := by
      ring
    rw [hcur]

/-- Helper: while no snap has occurred, the diff sequence of the render
loop is exactly the geometrically damped initial diff. -/
theorem seek_diffSeq_eq (c₀ target d₀ : ℝ) (k₀ : ℤ)
    (hd : normalizeAngle (target - c₀) = d₀)
    (hk : d₀ = (target - c₀) + 2 * Real.pi * k₀) (n : ℕ)
    (hyp : ∀ m : ℕ, m < n → 0.01 ≤ |(0.95:ℝ) ^ m * d₀|) :
    diffSeq ⟨c₀, target, true⟩ n = (0.95:ℝ) ^ n * d₀ := by
  rw [diffSeq, seek_invariant c₀ target d₀ k₀ hd hk n hyp]
  have harg : target - (target - (0.95:ℝ) ^ n * d₀ + 2 * Real.pi * k₀)
      = (0.95:ℝ) ^ n * d₀ - 2 * Real.pi * k₀ := by
    ring
  show normalizeAngle (target - (target - (0.95:ℝ) ^ n * d₀
    + 2 * Real.pi * k₀)) = _
  rw [harg]
  exact seek_diff_formula c₀ target d₀ k₀ hd hk n

/-- Helper: a lower bound on the observed diff sequence transfers to the
damped geometric sequence. -/
theorem seek_hyp_transfer (c₀ target d₀ : ℝ) (k₀ : ℤ)
    (hd : normalizeAngle (target - c₀) = d₀)
    (hk : d₀ = (target - c₀) + 2 * Real.pi * k₀) :
    ∀ n : ℕ, (∀ m : ℕ, m < n → 0.01 ≤ |diffSeq ⟨c₀, target, true⟩ m|) →
      ∀ m : ℕ, m < n → 0.01 ≤ |(0.95:ℝ) ^ m * d₀| := by
  intro n
  induction n with
  | zero => exact fun _ m hm => absurd hm (by omega)
  | succ n ih =>
    intro hyp m hm
    have hprev : ∀ m : ℕ, m < n → 0.01 ≤ |(0.95:ℝ) ^ m * d₀| :=
      ih fun j hj => hyp j (by omega)
    rcases Nat.lt_succ_iff_lt_or_eq.mp hm with h | h
    · exact hprev m h
    · subst h
      have hdm := seek_diffSeq_eq c₀ target d₀ k₀ hd hk m hprev
      rw [← hdm]
      exact hyp m (by omega)

/-- C4: starting in the Seeking state with the normalized signed diff in
[-pi, pi], the damped step makes |diff| strictly decrease while no snap has
occurred, and the loop reaches the exact target (clearing the rotating
flag) in fewer than 200 frames. -/
theorem seekStep_convergence (s₀ : RotState) (hrot : s₀.rotating = true)
    (hmem : -Real.pi ≤ normalizeAngle (s₀.target - s₀.current) ∧
      normalizeAngle (s₀.target - s₀.current) ≤ Real.pi) :
    (∀ n : ℕ, (∀ m : ℕ, m ≤ n → 0.01 ≤ |diffSeq s₀ m|) →
      |diffSeq s₀ (n + 1)| < |diffSeq s₀ n|) ∧
    (∃ n : ℕ, n < 200 ∧ (seekStep^[n] s₀).current = s₀.target ∧
      (seekStep^[n] s₀).rotating = false) := by
  classical
  obtain ⟨c₀, target, rot⟩ := s₀
  subst hrot
  set d₀ := normalizeAngle (target - c₀) with hd₀
  obtain ⟨k₀, hk₀⟩ := normalizeAngle_shift (target - c₀)
  have hd : normalizeAngle (target - c₀) = d₀ := rfl
  have hk : d₀ = (target - c₀) + 2 * Real.pi * k₀ := hk₀
  have hdabs : |d₀| ≤ Real.pi := abs_le.mpr (normalizeAngle_mem (target - c₀))
  constructor
  · intro n hyp
    have hyp' : ∀ m : ℕ, m < n + 1 → 0.01 ≤ |diffSeq ⟨c₀, target, true⟩ m| :=
      fun m hm => hyp m (by omega)
    have h95 := seek_hyp_transfer c₀ target d₀ k₀ hd hk (n + 1) hyp'
    have e1 : diffSeq ⟨c₀, target, true⟩ n = (0.95:ℝ) ^ n * d₀ :=
      seek_diffSeq_eq c₀ target d₀ k₀ hd hk n fun m hm => h95 m (by omega)
    have e2 : diffSeq ⟨c₀, target, true⟩ (n + 1) = (0.95:ℝ) ^ (n + 1) * d₀ :=
      seek_diffSeq_eq c₀ target d₀ k₀ hd hk (n + 1) h95
    have h0 : 0.01 ≤ |(0.95:ℝ) ^ n * d₀| := h95 n (by omega)
    rw [e1, e2]
    have hsplit : (0.95:ℝ) ^ (n + 1) * d₀ = 0.95 * ((0.95:ℝ) ^ n * d₀) := by
      ring
    rw [hsplit, abs_mul, abs_of_pos (show (0:ℝ) < 0.95 by norm_num)]
    linarith
  · have h113 : |(0.95:ℝ) ^ 113 * d₀| < 0.01 := by
      have habs : |(0.95:ℝ) ^ 113 * d₀| = (0.95:ℝ) ^ 113 * |d₀| := by
        rw [abs_mul, abs_of_pos (pow_pos (by norm_num) 113)]
      have hb : (0.95:ℝ) ^ 113 * |d₀| ≤ (0.95:ℝ) ^ 113 * Real.pi :=
        mul_le_mul_of_nonneg_left hdabs (by positivity)
      have hnum : (0.95:ℝ) ^ 113 * 3.15 < 0.01 := by norm_num
      have hπ := Real.pi_lt_d2
      have hpow : (0:ℝ) < (0.95:ℝ) ^ 113 := pow_pos (by norm_num) 113
      rw [habs]
      nlinarith
    have hex : ∃ n : ℕ, |(0.95:ℝ) ^ n * d₀| < 0.01 := ⟨113, h113⟩
    set N := Nat.find hex with hN
    have hspec : |(0.95:ℝ) ^ N * d₀| < 0.01 := Nat.find_spec hex
    have hNle : N ≤ 113 := Nat.find_min' hex h113
    have hmin : ∀ m : ℕ, m < N → 0.01 ≤ |(0.95:ℝ) ^ m * d₀| :=
      fun m hm => not_lt.mp (Nat.find_min hex hm)
    have hinv := seek_invariant c₀ target d₀ k₀ hd hk N hmin
    have hsnap : seekStep^[N + 1] ⟨c₀, target, true⟩ =
        ⟨target, target, false⟩ := by
      rw [Function.iterate_succ_apply', hinv]
      simp only [seekStep]
      have harg : target - (target - (0.95:ℝ) ^ N * d₀ + 2 * Real.pi * k₀)
          = (0.95:ℝ) ^ N * d₀ - 2 * Real.pi * k₀ := by
        ring
      rw [harg, seek_diff_formula c₀ target d₀ k₀ hd hk N, if_pos trivial,
        if_pos hspec]
    exact ⟨N + 1, by omega, by rw [hsnap], by rw [hsnap]⟩

/-- C4 witness: from current angle 0 seeking target pi/2, the loop snaps
exactly to pi/2 within 200 frames. -/
theorem seekStep_convergence_witness :
    (RotState.mk 0 (Real.pi / 2) true).rotating = true ∧
    (-Real.pi ≤ normalizeAngle ((RotState.mk 0 (Real.pi / 2) true).target -
        (RotState.mk 0 (Real.pi / 2) true).current) ∧
      normalizeAngle ((RotState.mk 0 (Real.pi / 2) true).target -
        (RotState.mk 0 (Real.pi / 2) true).current) ≤ Real.pi) ∧
    (∃ n : ℕ, n < 200 ∧
      (seekStep^[n] ⟨0, Real.pi / 2, true⟩).current = Real.pi / 2 ∧
      (seekStep^[n] ⟨0, Real.pi / 2, true⟩).rotating = false) := by
  have hπ := Real.pi_pos
  have hval : normalizeAngle (Real.pi / 2 - 0) = Real.pi / 2 := by
    rw [sub_zero]
    exact normalizeAngle_eq_self (Real.pi / 2) (by linarith) (by linarith)
  have hmem : -Real.pi ≤ normalizeAngle ((RotState.mk 0 (Real.pi / 2)
      true).target - (RotState.mk 0 (Real.pi / 2) true).current) ∧
      normalizeAngle ((RotState.mk 0 (Real.pi / 2) true).target -
        (RotState.mk 0 (Real.pi / 2) true).current) ≤ Real.pi := by
    show -Real.pi ≤ normalizeAngle (Real.pi / 2 - 0) ∧
      normalizeAngle (Real.pi / 2 - 0) ≤ Real.pi
    rw [hval]
    constructor <;> linarith
  exact ⟨rfl, hmem,
    (seekStep_convergence (RotState.mk 0 (Real.pi / 2) true) rfl hmem).2⟩

end ArxivGlobe
